import Mathlib

/-!
Verification of the web2code_wcgb evaluation pipeline
(`src/web2code_wcgb/vision_evaluation.py`).

The Python functions are embedded shallowly:
* strings are `List Char`;
* Python `dict`s (which preserve insertion order and have unique keys) are
  association lists `List (String × α)`;
* Python exceptions raised by a collaborator are modelled by `Option`
  results (`none` = the call raised);
* Python floats are modelled by `ℚ` (the arithmetic in
  `evaluate_image_metrics` is plain field arithmetic).
-/

set_option autoImplicit false

namespace Web2Code

/-! ## Data model (`utils.py`) -/

/-- Model of the `ImageEvaluationResult` TypedDict: `{"image_id": ..., "output": ...}`. -/
structure ImageEvaluationResult where
  image_id : String
  output : String
deriving DecidableEq

/-- Model of the `DetailedScores` TypedDict: the ten rubric fields, in source order. -/
structure DetailedScores where
  layout_consistency : Int
  element_alignment : Int
  proportional_accuracy : Int
  visual_harmony : Int
  color_scheme_match : Int
  aesthetic_resemblance : Int
  font_consistency : Int
  textual_content_match : Int
  numeric_accuracy : Int
  ui_consistency : Int
deriving DecidableEq

/-- Model of the `MetricsResult` TypedDict: the five aggregate fields. -/
structure MetricsResult where
  overall_similarity : ℚ
  visual_structure : ℚ
  color_aesthetic : ℚ
  textual_content : ℚ
  user_interface : ℚ
deriving DecidableEq

/-! ## Parsing (`get_individual_scores`) -/

/-- The characters removed from both ends by `str.strip(", ")`. -/
def isStripChar (c : Char) : Bool := c = ',' || c = ' '

/-- ASCII whitespace accepted (and ignored) around the number by `int()`. -/
def isPySpace (c : Char) : Bool :=
  c = ' ' || c = '\t' || c = '\n' || c = '\r' || c = '\x0b' || c = '\x0c'

/-- Python `output.replace("\n", ",")` on the character list. -/
def pyReplaceNl (cs : List Char) : List Char :=
  cs.map (fun c => if c = '\n' then ',' else c)

/-- Python `str.strip(", ")`: drop characters of the set from both ends. -/
def pyStrip (cs : List Char) : List Char :=
  ((cs.dropWhile isStripChar).reverse.dropWhile isStripChar).reverse

/-- Python `str.split(",")`. Splitting the empty string gives one empty token. -/
def splitComma : List Char → List (List Char)
  | [] => [[]]
  | c :: cs =>
    if c = ',' then [] :: splitComma cs
    else
      match splitComma cs with
      | [] => [[c]]
      | t :: ts => (c :: t) :: ts

/-- Numeric value of an ASCII digit. -/
def digitVal (c : Char) : Nat := c.toNat - 48

/-- Value of the digit string of a Python decimal integer literal, after the
first digit has been consumed into `acc`: further digits, with single
underscores permitted between digits. -/
def digitsAux : Nat → List Char → Option Nat
  | acc, [] => some acc
  | acc, c :: cs =>
    if c.isDigit then digitsAux (10 * acc + digitVal c) cs
    else if c = '_' then
      match cs with
      | [] => none
      | d :: cs2 => if d.isDigit then digitsAux (10 * acc + digitVal d) cs2 else none
    else none

/-- A non-empty decimal digit string (underscores permitted between digits). -/
def pyIntDigits : List Char → Option Nat
  | [] => none
  | c :: cs => if c.isDigit then digitsAux (digitVal c) cs else none

/-- Python `int(token)` on ASCII text: surrounding whitespace is ignored, an
optional single sign precedes the digits, and the digit string must be
non-empty; any other shape raises `ValueError` (modelled as `none`). -/
def pyInt (cs : List Char) : Option Int :=
  match ((cs.dropWhile isPySpace).reverse.dropWhile isPySpace).reverse with
  | '+' :: rest => (pyIntDigits rest).map (fun n => (n : Int))
  | '-' :: rest => (pyIntDigits rest).map (fun n => -(n : Int))
  | rest => (pyIntDigits rest).map (fun n => (n : Int))

/-- The token extraction of `get_individual_scores`:
`output.replace("\n", ",").strip(", ").split(",")`. -/
def extractTokens (cs : List Char) : List (List Char) :=
  splitComma (pyStrip (pyReplaceNl cs))

/-- Python `list(map(int, tokens))` on a token list: `none` as soon as one token
raises in `int()`. -/
def convertList : List (List Char) → Option (List Int)
  | [] => some []
  | t :: ts =>
    match pyInt t, convertList ts with
    | some v, some vs => some (v :: vs)
    | _, _ => none

/-- Python `list(map(int, output.replace("\n", ",").strip(", ").split(",")))`. -/
def convertTokens (cs : List Char) : Option (List Int) :=
  convertList (extractTokens cs)

/-- The body of the `get_individual_scores` loop on one record's raw `output`
text: `none` on a conversion error (caught exception) or on a token count
other than ten, otherwise the ten values assigned positionally. -/
def parseScores (cs : List Char) : Option DetailedScores :=
  match convertTokens cs with
  | none => none
  | some vals =>
    match vals with
    | [a, b, c, d, e, f, g, h, i, j] => some ⟨a, b, c, d, e, f, g, h, i, j⟩
    | _ => none

/-- Model of `get_individual_scores`: parse every cached record, dropping the
identifiers whose raw text fails to parse. -/
def get_individual_scores (results : List (String × ImageEvaluationResult)) :
    List (String × DetailedScores) :=
  results.filterMap (fun p =>
    match parseScores p.2.output.toList with
    | some ds => some (p.1, ds)
    | none => none)

/-! ## Aggregation (`evaluate_image_metrics`) -/

/-- One rubric's contribution to `vis_struct` (mean of the four layout fields). -/
def visContribution (o : DetailedScores) : ℚ :=
  ((o.layout_consistency : ℚ) + (o.element_alignment : ℚ)
    + (o.proportional_accuracy : ℚ) + (o.visual_harmony : ℚ)) / 4

/-- One rubric's contribution to `color_aesthetic` (mean of the two colour fields). -/
def colorContribution (o : DetailedScores) : ℚ :=
  ((o.color_scheme_match : ℚ) + (o.aesthetic_resemblance : ℚ)) / 2

/-- One rubric's contribution to `textual_content` (mean of the three text fields). -/
def textContribution (o : DetailedScores) : ℚ :=
  ((o.font_consistency : ℚ) + (o.textual_content_match : ℚ)
    + (o.numeric_accuracy : ℚ)) / 3

/-- One rubric's contribution to `user_interface` (the single `ui_consistency` field). -/
def uiContribution (o : DetailedScores) : ℚ := (o.ui_consistency : ℚ)

/-- Model of `evaluate_image_metrics` over the values of the input dict: accumulate the
four per-rubric contributions, return all zeroes when no rubric was processed,
otherwise divide by the count and average the four categories. -/
def evaluate_image_metrics (individual_results : List DetailedScores) : MetricsResult :=
  if individual_results.length = 0 then ⟨0, 0, 0, 0, 0⟩
  else
    let total : ℚ := individual_results.length
    let vis_struct := (individual_results.map visContribution).sum / total
    let color_aesthetic := (individual_results.map colorContribution).sum / total
    let textual_content := (individual_results.map textContribution).sum / total
    let user_interface := (individual_results.map uiContribution).sum / total
    let overall_score := (vis_struct + color_aesthetic + textual_content + user_interface) / 4
    ⟨overall_score, vis_struct, color_aesthetic, textual_content, user_interface⟩

/-! ## Fetching (`fetch_api_response`) -/

/-- The terminal error of `fetch_api_response`:
`Exception("Failed to fetch API response after retries.")`. -/
inductive FetchError where
  | exhausted
deriving DecidableEq

/-- Observable outcome of one `fetch_api_response` call: the returned text or
the raised error, the number of POST requests issued, and the durations of the
`time.sleep` calls in order. -/
structure FetchOutcome where
  result : Except FetchError String
  attempts : Nat
  sleeps : List Nat

/-- The `while attempt < max_attempts` loop of `fetch_api_response`.
`request n` models the `requests.post` + `raise_for_status` of the n-th
attempt (`none` = an exception was raised). A failed attempt increments the
counter and sleeps `retry_delay` before the next test of the loop condition. -/
def fetchLoop (request : Nat → Option String) (retry_delay : Nat) :
    Nat → Nat → List Nat → FetchOutcome
  | 0, made, sleeps => ⟨Except.error FetchError.exhausted, made, sleeps.reverse⟩
  | remaining + 1, made, sleeps =>
    match request made with
    | some content => ⟨Except.ok content, made + 1, sleeps.reverse⟩
    | none => fetchLoop request retry_delay remaining (made + 1) (retry_delay :: sleeps)

/-- Model of `fetch_api_response` with the source's default `max_attempts=3`,
`retry_delay=5`. -/
def fetch_api_response (request : Nat → Option String)
    (max_attempts : Nat := 3) (retry_delay : Nat := 5) : FetchOutcome :=
  fetchLoop request retry_delay max_attempts 0 []

/-! ## The evaluation loop (`generate_responses`) -/

/-- First-match association-list lookup, the model of `dict` access. -/
def lookupKey {α : Type} (k : String) : List (String × α) → Option α
  | [] => none
  | p :: rest => if p.1 = k then some p.2 else lookupKey k rest

/-- The `for base_name, pred_image in pred_files.items()` loop of
`generate_responses`, instrumented with the list of identifiers for which
`fetch_response_func` was invoked, in call order. `encode` models
`encode_image` and `fetch` models `fetch_response_func`; for both, `none`
means the call raised, which the source catches and skips past. -/
def generateGo {Img : Type} (encode : Img → Option String)
    (fetch : String → String → Option String)
    (gt_files : List (String × Img)) :
    List (String × Img) → List (String × ImageEvaluationResult) →
    List (String × ImageEvaluationResult) × List String
  | [], results => (results, [])
  | (base_name, pred_image) :: rest, results =>
    if (lookupKey base_name results).isSome then
      generateGo encode fetch gt_files rest results
    else
      match lookupKey base_name gt_files with
      | none => generateGo encode fetch gt_files rest results
      | some gt_image =>
        match encode pred_image, encode gt_image with
        | some pred_b64, some gt_b64 =>
          let newResults :=
            match fetch gt_b64 pred_b64 with
            | some content => results ++ [(base_name, ⟨base_name, content⟩)]
            | none => results
          let out := generateGo encode fetch gt_files rest newResults
          (out.1, base_name :: out.2)
        | _, _ => generateGo encode fetch gt_files rest results

/-- Model of `generate_responses`: start from a copy of the cached mapping and process
every predicted identifier in order. Returns the final mapping. -/
def generate_responses {Img : Type} (pred_files gt_files : List (String × Img))
    (cached_processed_data : List (String × ImageEvaluationResult))
    (encode : Img → Option String) (fetch : String → String → Option String) :
    List (String × ImageEvaluationResult) :=
  (generateGo encode fetch gt_files pred_files cached_processed_data).1

/-- The identifiers for which `generate_responses` invoked
`fetch_response_func`, in call order (ghost instrumentation). -/
def fetchTrace {Img : Type} (pred_files gt_files : List (String × Img))
    (cached_processed_data : List (String × ImageEvaluationResult))
    (encode : Img → Option String) (fetch : String → String → Option String) :
    List String :=
  (generateGo encode fetch gt_files pred_files cached_processed_data).2

/-- The record one iteration of the `generate_responses` loop is expected to
add for one predicted pair, given the mapping state at that iteration:
`none` exactly when the pair is skipped (already present, missing ground
truth, encoding failure, or fetch failure — never a cached failure marker). -/
def newRecord {Img : Type} (encode : Img → Option String)
    (fetch : String → String → Option String)
    (gt_files : List (String × Img))
    (state : List (String × ImageEvaluationResult))
    (p : String × Img) : Option (String × ImageEvaluationResult) :=
  if (lookupKey p.1 state).isSome then none
  else
    match lookupKey p.1 gt_files with
    | none => none
    | some gt_image =>
      match encode p.2, encode gt_image with
      | some pred_b64, some gt_b64 =>
        match fetch gt_b64 pred_b64 with
        | some content => some (p.1, ⟨p.1, content⟩)
        | none => none
      | _, _ => none

/-! ## Rendering a rubric (for the round-trip property) -/

/-- Decimal digit characters of a natural number. -/
def natChars (n : Nat) : List Char := Nat.toDigits 10 n

/-- Decimal rendering of an integer. -/
def intChars (v : Int) : List Char :=
  if v < 0 then '-' :: natChars (-v).toNat else natChars v.toNat

/-- Join tokens with single commas: the rendering `"v0,v1,...,v9"`. -/
def joinCommas : List (List Char) → List Char
  | [] => []
  | [t] => t
  | t :: t2 :: ts => t ++ ',' :: joinCommas (t2 :: ts)

/-- The ten fields of a rubric, in the fixed positional order. -/
def rubricFields (o : DetailedScores) : List Int :=
  [o.layout_consistency, o.element_alignment, o.proportional_accuracy,
   o.visual_harmony, o.color_scheme_match, o.aesthetic_resemblance,
   o.font_consistency, o.textual_content_match, o.numeric_accuracy,
   o.ui_consistency]

/-- Render a rubric as the comma-separated decimal string `"v0,v1,...,v9"`. -/
def renderRubric (o : DetailedScores) : List Char :=
  joinCommas ((rubricFields o).map intChars)

/-- All ten fields of a rubric lie in the closed range [0,10]. -/
def rubricInRange (o : DetailedScores) : Prop :=
  ∀ v ∈ rubricFields o, 0 ≤ v ∧ v ≤ 10

instance (o : DetailedScores) : Decidable (rubricInRange o) := by
  unfold rubricInRange; infer_instance

/-! ## Spec-side formulations -/

/-- The population mean named by the spec: sum divided by count. -/
def specMean (l : List ℚ) : ℚ := l.sum / l.length

/-! ## Aggregation claims -/

/-- C6: on an empty rubric set, `evaluate_image_metrics` returns a
`MetricsResult` whose five fields are all exactly 0 (the zero-count branch is
taken instead of dividing by zero). -/
theorem c6_empty_metrics :
    (evaluate_image_metrics []).overall_similarity = 0
    ∧ (evaluate_image_metrics []).visual_structure = 0
    ∧ (evaluate_image_metrics []).color_aesthetic = 0
    ∧ (evaluate_image_metrics []).textual_content = 0
    ∧ (evaluate_image_metrics []).user_interface = 0 :=
  ⟨rfl, rfl, rfl, rfl, rfl⟩

/-- C2: on a non-empty rubric list, each category field of
`evaluate_image_metrics` is the mean over rubrics of the unweighted mean of
that category's sub-fields (`user_interface` of the single `ui_consistency`
field), and `overall_similarity` is the unweighted mean of the four category
values — an average of averages; in particular, the two rubrics all-0 and
all-10 yield exactly 5 for every output field. -/
theorem c2_aggregation_formula (rs : List DetailedScores) (hne : rs ≠ []) :
    ((evaluate_image_metrics rs).visual_structure
      = specMean (rs.map (fun r => specMean
          [(r.layout_consistency : ℚ), (r.element_alignment : ℚ),
           (r.proportional_accuracy : ℚ), (r.visual_harmony : ℚ)]))
    ∧ (evaluate_image_metrics rs).color_aesthetic
      = specMean (rs.map (fun r => specMean
          [(r.color_scheme_match : ℚ), (r.aesthetic_resemblance : ℚ)]))
    ∧ (evaluate_image_metrics rs).textual_content
      = specMean (rs.map (fun r => specMean
          [(r.font_consistency : ℚ), (r.textual_content_match : ℚ),
           (r.numeric_accuracy : ℚ)]))
    ∧ (evaluate_image_metrics rs).user_interface
      = specMean (rs.map (fun r => (r.ui_consistency : ℚ)))
    ∧ (evaluate_image_metrics rs).overall_similarity
      = specMean [(evaluate_image_metrics rs).visual_structure,
          (evaluate_image_metrics rs).color_aesthetic,
          (evaluate_image_metrics rs).textual_content,
          (evaluate_image_metrics rs).user_interface])
    ∧ evaluate_image_metrics
        [⟨0, 0, 0, 0, 0, 0, 0, 0, 0, 0⟩, ⟨10, 10, 10, 10, 10, 10, 10, 10, 10, 10⟩]
      = ⟨5, 5, 5, 5, 5⟩ := by
  have hlen : rs.length ≠ 0 := fun h => hne (List.length_eq_zero.mp h)
  have hv : (fun r : DetailedScores => specMean
      [(r.layout_consistency : ℚ), (r.element_alignment : ℚ),
       (r.proportional_accuracy : ℚ), (r.visual_harmony : ℚ)]) = visContribution := by
    funext r
    simp only [specMean, List.sum_cons, List.sum_nil, List.length_cons,
      List.length_nil, visContribution]
    norm_num
    ring
  have hc : (fun r : DetailedScores => specMean
      [(r.color_scheme_match : ℚ), (r.aesthetic_resemblance : ℚ)]) = colorContribution := by
    funext r
    simp only [specMean, List.sum_cons, List.sum_nil, List.length_cons,
      List.length_nil, colorContribution]
    norm_num
  have ht : (fun r : DetailedScores => specMean
      [(r.font_consistency : ℚ), (r.textual_content_match : ℚ),
       (r.numeric_accuracy : ℚ)]) = textContribution := by
    funext r
    simp only [specMean, List.sum_cons, List.sum_nil, List.length_cons,
      List.length_nil, textContribution]
    norm_num
    ring
  have hu : (fun r : DetailedScores => (r.ui_consistency : ℚ)) = uiContribution := by
    funext r
    simp only [uiContribution]
  refine ⟨⟨?_, ?_, ?_, ?_, ?_⟩, ?_⟩
  · rw [hv]
    simp [evaluate_image_metrics, hlen, specMean]
  · rw [hc]
    simp [evaluate_image_metrics, hlen, specMean]
  · rw [ht]
    simp [evaluate_image_metrics, hlen, specMean]
  · rw [hu]
    simp [evaluate_image_metrics, hlen, specMean]
  · simp only [evaluate_image_metrics, hlen, if_neg, specMean, List.sum_cons,
      List.sum_nil, List.length_cons, List.length_nil]
    norm_num
    ring
  · simp [evaluate_image_metrics, visContribution, colorContribution,
      textContribution, uiContribution, MetricsResult.mk.injEq]
    norm_num

/-- Witness for C2: the theorem applied to the non-empty list of the all-0 and
all-10 rubrics. -/
theorem c2_aggregation_formula_witness :
    evaluate_image_metrics
        [⟨0, 0, 0, 0, 0, 0, 0, 0, 0, 0⟩, ⟨10, 10, 10, 10, 10, 10, 10, 10, 10, 10⟩]
      = ⟨5, 5, 5, 5, 5⟩ :=
  (c2_aggregation_formula
    [⟨0, 0, 0, 0, 0, 0, 0, 0, 0, 0⟩, ⟨10, 10, 10, 10, 10, 10, 10, 10, 10, 10⟩]
    (by simp)).2

/-! ## Fetch retry claims -/

theorem fetchLoop_all_fail (request : Nat → Option String) (retry_delay : Nat)
    (hfail : ∀ n, request n = none) :
    ∀ remaining made sleeps,
      fetchLoop request retry_delay remaining made sleeps
        = ⟨Except.error FetchError.exhausted, made + remaining,
            sleeps.reverse ++ List.replicate remaining retry_delay⟩ := by
  intro remaining
  induction remaining with
  | zero => intro made sleeps; simp [fetchLoop]
  | succ rem ih =>
    intro made sleeps
    rw [fetchLoop, hfail made, ih (made + 1) (retry_delay :: sleeps)]
    simp only [FetchOutcome.mk.injEq, List.reverse_cons, List.append_assoc,
      List.replicate_succ, List.singleton_append]
    exact ⟨trivial, by omega, trivial⟩

/-- C4: when every request attempt fails, `fetch_api_response` issues exactly
`max_attempts` request attempts, sleeps the fixed `retry_delay` after each
failed attempt (so the delay observed between consecutive attempts is always
`retry_delay`, never an exponential backoff), and raises the exhaustion
error — terminal for this one call only. -/
theorem c4_fetch_exhaustion (request : Nat → Option String)
    (max_attempts retry_delay : Nat) (hfail : ∀ n, request n = none) :
    fetch_api_response request max_attempts retry_delay
      = ⟨Except.error FetchError.exhausted, max_attempts,
          List.replicate max_attempts retry_delay⟩ := by
  rw [fetch_api_response, fetchLoop_all_fail request retry_delay hfail]
  simp

/-- Witness for C4: an always-failing request stub at the source defaults
`max_attempts = 3`, `retry_delay = 5` is attempted exactly three times, with
the delay 5 observed each time, before the exhaustion error. -/
theorem c4_fetch_exhaustion_witness :
    fetch_api_response (fun _ => none) 3 5
      = ⟨Except.error FetchError.exhausted, 3, [5, 5, 5]⟩ :=
  c4_fetch_exhaustion (fun _ => none) 3 5 (fun _ => rfl)

/-! ## Evaluation-loop claims -/

theorem lookupKey_append_single_ne {α : Type} {k b : String} (v : α)
    (l : List (String × α)) (h : b ≠ k) :
    lookupKey k (l ++ [(b, v)]) = lookupKey k l := by
  induction l with
  | nil => simp [lookupKey, h]
  | cons p rest ih => by_cases hp : p.1 = k <;> simp [lookupKey, hp, ih]

theorem generateGo_all_cached {Img : Type} (encode : Img → Option String)
    (fetch : String → String → Option String) (gt_files : List (String × Img)) :
    ∀ (pred : List (String × Img)) (results : List (String × ImageEvaluationResult)),
      (∀ p ∈ pred, (lookupKey p.1 results).isSome = true) →
      generateGo encode fetch gt_files pred results = (results, []) := by
  intro pred
  induction pred with
  | nil => intro results _; rfl
  | cons hd rest ih =>
    intro results hcov
    obtain ⟨base_name, pred_image⟩ := hd
    have hhd : (lookupKey base_name results).isSome = true :=
      hcov (base_name, pred_image) (List.mem_cons_self _ _)
    simp only [generateGo, hhd, if_true]
    exact ih results (fun p hp => hcov p (List.mem_cons_of_mem _ hp))

theorem generateGo_trace_sublist {Img : Type} (encode : Img → Option String)
    (fetch : String → String → Option String) (gt_files : List (String × Img)) :
    ∀ (pred : List (String × Img)) (results : List (String × ImageEvaluationResult)),
      (generateGo encode fetch gt_files pred results).2.Sublist (pred.map Prod.fst) := by
  intro pred
  induction pred with
  | nil => intro results; simp [generateGo]
  | cons hd rest ih =>
    intro results
    obtain ⟨base_name, pred_image⟩ := hd
    simp only [generateGo, List.map_cons]
    split
    · exact (ih results).cons _
    · split
      · exact (ih results).cons _
      · split
        · exact (ih _).cons₂ _
        · exact (ih results).cons _

/-- C1: when every predicted identifier already has a cached record,
`generate_responses` invokes the fetch function zero times and returns the
cached mapping unchanged; and in any run over distinct predicted identifiers
(dict keys are unique) the fetch function is invoked at most once per
identifier. -/
theorem c1_idempotent_cache {Img : Type} (pred_files gt_files : List (String × Img))
    (cached : List (String × ImageEvaluationResult))
    (encode : Img → Option String) (fetch : String → String → Option String) :
    ((∀ p ∈ pred_files, (lookupKey p.1 cached).isSome = true) →
      generate_responses pred_files gt_files cached encode fetch = cached
      ∧ fetchTrace pred_files gt_files cached encode fetch = [])
    ∧ ((pred_files.map Prod.fst).Nodup →
      (fetchTrace pred_files gt_files cached encode fetch).Nodup) := by
  constructor
  · intro hcov
    have h := generateGo_all_cached encode fetch gt_files pred_files cached hcov
    exact ⟨by rw [generate_responses, h], by rw [fetchTrace, h]⟩
  · intro hnd
    exact (generateGo_trace_sublist encode fetch gt_files pred_files cached).nodup hnd

/-- Witness for C1: a one-pair input whose identifier is already cached is
returned unchanged with an empty fetch trace, and the trace is duplicate-free. -/
theorem c1_idempotent_cache_witness :
    (generate_responses [("a", (1 : Nat))] [("a", 2)] [("a", ⟨"a", "raw"⟩)]
        (fun _ => some "enc") (fun _ _ => some "out")
      = [("a", ⟨"a", "raw"⟩)]
    ∧ fetchTrace [("a", (1 : Nat))] [("a", 2)] [("a", ⟨"a", "raw"⟩)]
        (fun _ => some "enc") (fun _ _ => some "out") = [])
    ∧ (fetchTrace [("a", (1 : Nat))] [("a", 2)] [("a", ⟨"a", "raw"⟩)]
        (fun _ => some "enc") (fun _ _ => some "out")).Nodup :=
  ⟨(c1_idempotent_cache _ _ _ _ _).1 (by decide),
   (c1_idempotent_cache _ _ _ _ _).2 (by decide)⟩

theorem generateGo_not_in_gt {Img : Type} (encode : Img → Option String)
    (fetch : String → String → Option String) (gt_files : List (String × Img))
    (k : String) (hgt : lookupKey k gt_files = none) :
    ∀ (pred : List (String × Img)) (results : List (String × ImageEvaluationResult)),
      lookupKey k results = none →
      lookupKey k (generateGo encode fetch gt_files pred results).1 = none
      ∧ k ∉ (generateGo encode fetch gt_files pred results).2 := by
  intro pred
  induction pred with
  | nil => intro results hres; simpa [generateGo] using hres
  | cons hd rest ih =>
    intro results hres
    obtain ⟨base_name, pred_image⟩ := hd
    simp only [generateGo]
    split
    · exact ih results hres
    · split
      · exact ih results hres
      · rename_i gt_image hgt_some
        have hne : base_name ≠ k := by
          intro hbk
          rw [hbk, hgt] at hgt_some
          exact Option.noConfusion hgt_some
        split
        · rename_i pred_b64 gt_b64 henc1 henc2
          have hres2 : lookupKey k
              (match fetch gt_b64 pred_b64 with
               | some content =>
                   results ++ [(base_name, ⟨base_name, content⟩)]
               | none => results) = none := by
            cases fetch gt_b64 pred_b64 with
            | none => exact hres
            | some content => rw [lookupKey_append_single_ne _ _ hne]; exact hres
          have hih := ih _ hres2
          refine ⟨hih.1, ?_⟩
          intro hmem
          rcases List.mem_cons.mp hmem with h | h
          · exact hne h.symm
          · exact hih.2 h
        · exact ih results hres

/-- C8: an identifier with no ground-truth image and no cached record is never
fetched and is absent from the output mapping of `generate_responses` (the
run continues normally; nothing is raised for it). -/
theorem c8_missing_ground_truth {Img : Type} (pred_files gt_files : List (String × Img))
    (cached : List (String × ImageEvaluationResult))
    (encode : Img → Option String) (fetch : String → String → Option String)
    (k : String) (hgt : lookupKey k gt_files = none)
    (hcache : lookupKey k cached = none) :
    lookupKey k (generate_responses pred_files gt_files cached encode fetch) = none
    ∧ k ∉ fetchTrace pred_files gt_files cached encode fetch :=
  generateGo_not_in_gt encode fetch gt_files k hgt pred_files cached hcache

/-- Witness for C8: the identifier "x" is in the predicted set only; it gets
no entry in the output and no fetch, while the other identifier "a" is still
processed. -/
theorem c8_missing_ground_truth_witness :
    lookupKey "x" (generate_responses [("x", (0 : Nat)), ("a", 1)] [("a", 2)] []
        (fun _ => some "enc") (fun _ _ => some "out")) = none
    ∧ "x" ∉ fetchTrace [("x", (0 : Nat)), ("a", 1)] [("a", 2)] []
        (fun _ => some "enc") (fun _ _ => some "out") :=
  c8_missing_ground_truth [("x", (0 : Nat)), ("a", 1)] [("a", 2)] []
    (fun _ => some "enc") (fun _ _ => some "out") "x" (by decide) (by decide)

theorem newRecord_state_snoc {Img : Type} (encode : Img → Option String)
    (fetch : String → String → Option String) (gt_files : List (String × Img))
    (state : List (String × ImageEvaluationResult)) (b : String)
    (r : ImageEvaluationResult) (p : String × Img) (hne : b ≠ p.1) :
    newRecord encode fetch gt_files (state ++ [(b, r)]) p
      = newRecord encode fetch gt_files state p := by
  rw [newRecord, newRecord, lookupKey_append_single_ne _ _ hne]

theorem generateGo_union {Img : Type} (encode : Img → Option String)
    (fetch : String → String → Option String) (gt_files : List (String × Img)) :
    ∀ (pred : List (String × Img)) (results : List (String × ImageEvaluationResult)),
      (pred.map Prod.fst).Nodup →
      (generateGo encode fetch gt_files pred results).1
        = results ++ pred.filterMap (newRecord encode fetch gt_files results) := by
  intro pred
  induction pred with
  | nil => intro results _; simp [generateGo]
  | cons hd rest ih =>
    intro results hnd
    obtain ⟨base_name, pred_image⟩ := hd
    rw [List.map_cons, List.nodup_cons] at hnd
    obtain ⟨hb, hrest⟩ := hnd
    simp only [generateGo, List.filterMap_cons]
    split
    · rename_i hcached
      rw [newRecord, if_pos hcached, ih results hrest]
    · rename_i hcached
      rw [Bool.not_eq_true] at hcached
      split
      · rename_i hgt_none
        rw [newRecord, if_neg (by simp [hcached]), hgt_none, ih results hrest]
      · rename_i gt_image hgt_some
        split
        · rename_i pred_b64 gt_b64 henc1 henc2
          rw [newRecord, if_neg (by simp [hcached]), hgt_some]
          simp only [henc1, henc2]
          cases hfetch : fetch gt_b64 pred_b64 with
          | none =>
            simp only [hfetch]
            exact ih results hrest
          | some content =>
            simp only [hfetch]
            rw [ih _ hrest, List.append_assoc, List.singleton_append]
            congr 1
            congr 1
            apply List.filterMap_congr
            intro p hp
            apply newRecord_state_snoc
            intro hbp
            exact hb (by simpa [hbp] using List.mem_map_of_mem Prod.fst hp)
        · rename_i henc
          rw [newRecord, if_neg (by simp [hcached]), hgt_some]
          rcases he1 : encode pred_image with _ | v1
          · simp only [he1]
            exact ih results hrest
          · rcases he2 : encode gt_image with _ | v2
            · simp only [he1, he2]
              exact ih results hrest
            · exact (henc v1 v2 (he1 ▸ rfl) (he2 ▸ rfl)).elim

/-- C5: over distinct predicted identifiers, the output of
`generate_responses` is exactly the pre-existing cached records — preserved
unchanged, in place — followed by one new record per pair that succeeded
(not cached, ground truth present, both encodings and the fetch succeeded);
a pair that fails leaves no record and no failure marker and aborts nothing. -/
theorem c5_partial_failure_union {Img : Type} (pred_files gt_files : List (String × Img))
    (cached : List (String × ImageEvaluationResult))
    (encode : Img → Option String) (fetch : String → String → Option String)
    (hnd : (pred_files.map Prod.fst).Nodup) :
    generate_responses pred_files gt_files cached encode fetch
      = cached ++ pred_files.filterMap (newRecord encode fetch gt_files cached) :=
  generateGo_union encode fetch gt_files pred_files cached hnd

/-- Witness for C5: one pair succeeds, one fails its fetch, one lacks ground
truth, one is already cached, one fails encoding; the output is the cached
record unchanged plus only the successful pair's record. -/
theorem c5_partial_failure_union_witness :
    generate_responses
        [("ok", (0 : Nat)), ("failfetch", 1), ("nogt", 2), ("cachedid", 3), ("failenc", 4)]
        [("ok", 10), ("failfetch", 11), ("cachedid", 12), ("failenc", 13)]
        [("cachedid", ⟨"cachedid", "old"⟩)]
        (fun n => if n = 4 then none else some (toString n))
        (fun _ pb => if pb = "1" then none else some "out")
      = [("cachedid", ⟨"cachedid", "old"⟩), ("ok", ⟨"ok", "out"⟩)] :=
  (c5_partial_failure_union
    [("ok", (0 : Nat)), ("failfetch", 1), ("nogt", 2), ("cachedid", 3), ("failenc", 4)]
    [("ok", 10), ("failfetch", 11), ("cachedid", 12), ("failenc", 13)]
    [("cachedid", ⟨"cachedid", "old"⟩)]
    (fun n => if n = 4 then none else some (toString n))
    (fun _ pb => if pb = "1" then none else some "out")
    (by decide)).trans (by decide)

/-! ## Parsing claims -/

theorem convertList_isSome (ts : List (List Char)) :
    (convertList ts).isSome = true ↔ ∀ t ∈ ts, (pyInt t).isSome = true := by
  induction ts with
  | nil => simp [convertList]
  | cons t ts ih =>
    cases hp : pyInt t with
    | none => simp [convertList, hp]
    | some v =>
      cases hc : convertList ts with
      | none => simp [convertList, hp, hc, ← ih]
      | some vs => simp [convertList, hp, hc, ← ih]

theorem convertList_length (ts : List (List Char)) (vs : List Int)
    (h : convertList ts = some vs) : vs.length = ts.length := by
  induction ts generalizing vs with
  | nil =>
    rw [convertList] at h
    cases h
    rfl
  | cons t ts ih =>
    rw [convertList] at h
    cases hp : pyInt t with
    | none => rw [hp] at h; cases h
    | some v =>
      cases hc : convertList ts with
      | none => rw [hp, hc] at h; cases h
      | some vs2 =>
        rw [hp, hc] at h
        cases h
        simp [ih vs2 hc]

theorem parseScores_of_convert (cs : List Char) (vals : List Int)
    (h : convertTokens cs = some vals) (hlen : vals.length = 10) :
    ∃ ds, parseScores cs = some ds ∧ rubricFields ds = vals := by
  rcases vals with _|⟨a,_|⟨b,_|⟨c,_|⟨d,_|⟨e,_|⟨f,_|⟨g,_|⟨h10,_|⟨i,_|⟨j,_|⟨k,rest⟩⟩⟩⟩⟩⟩⟩⟩⟩⟩⟩
  all_goals first
    | (refine ⟨⟨a, b, c, d, e, f, g, h10, i, j⟩, ?_, rfl⟩; simp [parseScores, h])
    | (exfalso; simp only [List.length_cons, List.length_nil] at hlen; omega)

theorem parseScores_none_of_badlen (cs : List Char) (vals : List Int)
    (h : convertTokens cs = some vals) (hlen : vals.length ≠ 10) :
    parseScores cs = none := by
  rcases vals with _|⟨a,_|⟨b,_|⟨c,_|⟨d,_|⟨e,_|⟨f,_|⟨g,_|⟨h10,_|⟨i,_|⟨j,_|⟨k,rest⟩⟩⟩⟩⟩⟩⟩⟩⟩⟩⟩
  all_goals first
    | (exact absurd rfl hlen)
    | (simp [parseScores, h])

/-- C3: `get_individual_scores` parses one record's raw text to a rubric
exactly when `replace`/`strip`/`split` extraction yields exactly ten tokens
all convertible by `int()`; the ten values are assigned positionally in the
fixed field order; and the spec's example input (with a literal newline and
stray spaces) parses to [7,8,9,10,6,5,4,3,2,1]. -/
theorem c3_parser_tolerance (cs : List Char) :
    ((parseScores cs).isSome = true ↔
      ((extractTokens cs).length = 10 ∧ ∀ t ∈ extractTokens cs, (pyInt t).isSome = true))
    ∧ (∀ ds, parseScores cs = some ds → convertTokens cs = some (rubricFields ds))
    ∧ parseScores ("7\n8, 9 ,10,6,5,4,3,2,1".toList)
        = some ⟨7, 8, 9, 10, 6, 5, 4, 3, 2, 1⟩ := by
  refine ⟨?_, ?_, by decide⟩
  · cases hc : convertTokens cs with
    | none =>
      have hnone : ¬ ∀ t ∈ extractTokens cs, (pyInt t).isSome = true := by
        intro hall
        have := (convertList_isSome (extractTokens cs)).mpr hall
        rw [show convertList (extractTokens cs) = convertTokens cs from rfl, hc] at this
        cases this
      simp [parseScores, hc, hnone]
    | some vals =>
      have hlenv : vals.length = (extractTokens cs).length :=
        convertList_length _ _ hc
      have hall : ∀ t ∈ extractTokens cs, (pyInt t).isSome = true :=
        (convertList_isSome _).mp
          (by rw [show convertList (extractTokens cs) = convertTokens cs from rfl, hc]; rfl)
      by_cases hlen : vals.length = 10
      · obtain ⟨ds, hds, _⟩ := parseScores_of_convert cs vals hc hlen
        rw [hds]
        simp only [Option.isSome_some, true_iff]
        exact ⟨hlenv ▸ hlen, hall⟩
      · rw [parseScores_none_of_badlen cs vals hc hlen]
        simp only [Option.isSome_none, Bool.false_eq_true, false_iff, not_and]
        intro hl _
        exact hlen (by rw [hlenv, hl])
  · intro ds hds
    cases hc : convertTokens cs with
    | none =>
      have hn : parseScores cs = none := by simp [parseScores, hc]
      rw [hn] at hds
      cases hds
    | some vals =>
      by_cases hlen : vals.length = 10
      · obtain ⟨ds2, hds2, hfields⟩ := parseScores_of_convert cs vals hc hlen
        obtain rfl : ds2 = ds := Option.some.inj (hds2.symm.trans hds)
        rw [hfields]
      · rw [parseScores_none_of_badlen cs vals hc hlen] at hds
        cases hds

/-- Witness for C3: the positional-assignment implication applied to the
spec's example input, whose parse is evaluated by `decide`. -/
theorem c3_parser_tolerance_witness :
    convertTokens ("7\n8, 9 ,10,6,5,4,3,2,1".toList)
      = some (rubricFields ⟨7, 8, 9, 10, 6, 5, 4, 3, 2, 1⟩) :=
  (c3_parser_tolerance ("7\n8, 9 ,10,6,5,4,3,2,1".toList)).2.1
    ⟨7, 8, 9, 10, 6, 5, 4, 3, 2, 1⟩ (by decide)

/-- C7 counterexample: the raw text "11,0,0,0,0,0,0,0,0,0" extracts to ten
integer tokens with 11 outside [0,10], yet parsing succeeds (it is not a
ParseFailure) and the out-of-range value 11 is stored unclamped. -/
theorem c7_out_of_range_counterexample :
    parseScores ("11,0,0,0,0,0,0,0,0,0".toList)
      = some ⟨11, 0, 0, 0, 0, 0, 0, 0, 0, 0⟩
    ∧ ¬ rubricInRange ⟨11, 0, 0, 0, 0, 0, 0, 0, 0, 0⟩ := by decide

/-- C7 amended: the parser performs no range validation and never clamps: any
raw text extracting to exactly ten integer tokens — in range or not — parses
to the rubric holding those tokens verbatim, so a parser-produced rubric can
have fields outside [0,10] (range checking is left to the caller). -/
theorem c7_no_range_validation (cs : List Char) (vals : List Int)
    (h : convertTokens cs = some vals) (hlen : vals.length = 10) :
    ∃ ds, parseScores cs = some ds ∧ rubricFields ds = vals :=
  parseScores_of_convert cs vals h hlen

/-- Witness for C7 amended: the out-of-range extraction [99,0,...,0] parses
to the rubric storing 99 verbatim. -/
theorem c7_no_range_validation_witness :
    ∃ ds, parseScores ("99,0,0,0,0,0,0,0,0,0".toList) = some ds
      ∧ rubricFields ds = [99, 0, 0, 0, 0, 0, 0, 0, 0, 0] :=
  c7_no_range_validation ("99,0,0,0,0,0,0,0,0,0".toList)
    [99, 0, 0, 0, 0, 0, 0, 0, 0, 0] (by decide) (by decide)

/-! ## Range invariant of the aggregation -/

theorem mean_bounds (l : List ℚ) (hne : l ≠ [])
    (h : ∀ x ∈ l, 0 ≤ x ∧ x ≤ 10) :
    0 ≤ l.sum / l.length ∧ l.sum / l.length ≤ 10 := by
  have hlen : (0 : ℚ) < l.length := by
    have hz : l.length ≠ 0 := fun hh => hne (List.length_eq_zero.mp hh)
    exact_mod_cast Nat.pos_of_ne_zero hz
  constructor
  · exact div_nonneg (List.sum_nonneg (fun x hx => (h x hx).1)) hlen.le
  · rw [div_le_iff hlen]
    calc l.sum ≤ l.length • (10 : ℚ) :=
          List.sum_le_card_nsmul l 10 (fun x hx => (h x hx).2)
      _ = 10 * l.length := by rw [nsmul_eq_mul]; ring

theorem visContribution_bounds (r : DetailedScores) (h : rubricInRange r) :
    0 ≤ visContribution r ∧ visContribution r ≤ 10 := by
  have f1 := h r.layout_consistency (by simp [rubricFields])
  have f2 := h r.element_alignment (by simp [rubricFields])
  have f3 := h r.proportional_accuracy (by simp [rubricFields])
  have f4 := h r.visual_harmony (by simp [rubricFields])
  have q1 : (0 : ℚ) ≤ (r.layout_consistency : ℚ) ∧ (r.layout_consistency : ℚ) ≤ 10 := by
    exact_mod_cast f1
  have q2 : (0 : ℚ) ≤ (r.element_alignment : ℚ) ∧ (r.element_alignment : ℚ) ≤ 10 := by
    exact_mod_cast f2
  have q3 : (0 : ℚ) ≤ (r.proportional_accuracy : ℚ) ∧ (r.proportional_accuracy : ℚ) ≤ 10 := by
    exact_mod_cast f3
  have q4 : (0 : ℚ) ≤ (r.visual_harmony : ℚ) ∧ (r.visual_harmony : ℚ) ≤ 10 := by
    exact_mod_cast f4
  rw [visContribution]
  constructor <;> linarith [q1.1, q1.2, q2.1, q2.2, q3.1, q3.2, q4.1, q4.2]

theorem colorContribution_bounds (r : DetailedScores) (h : rubricInRange r) :
    0 ≤ colorContribution r ∧ colorContribution r ≤ 10 := by
  have f5 := h r.color_scheme_match (by simp [rubricFields])
  have f6 := h r.aesthetic_resemblance (by simp [rubricFields])
  have q5 : (0 : ℚ) ≤ (r.color_scheme_match : ℚ) ∧ (r.color_scheme_match : ℚ) ≤ 10 := by
    exact_mod_cast f5
  have q6 : (0 : ℚ) ≤ (r.aesthetic_resemblance : ℚ) ∧ (r.aesthetic_resemblance : ℚ) ≤ 10 := by
    exact_mod_cast f6
  rw [colorContribution]
  constructor <;> linarith [q5.1, q5.2, q6.1, q6.2]

theorem textContribution_bounds (r : DetailedScores) (h : rubricInRange r) :
    0 ≤ textContribution r ∧ textContribution r ≤ 10 := by
  have f7 := h r.font_consistency (by simp [rubricFields])
  have f8 := h r.textual_content_match (by simp [rubricFields])
  have f9 := h r.numeric_accuracy (by simp [rubricFields])
  have q7 : (0 : ℚ) ≤ (r.font_consistency : ℚ) ∧ (r.font_consistency : ℚ) ≤ 10 := by
    exact_mod_cast f7
  have q8 : (0 : ℚ) ≤ (r.textual_content_match : ℚ) ∧ (r.textual_content_match : ℚ) ≤ 10 := by
    exact_mod_cast f8
  have q9 : (0 : ℚ) ≤ (r.numeric_accuracy : ℚ) ∧ (r.numeric_accuracy : ℚ) ≤ 10 := by
    exact_mod_cast f9
  rw [textContribution]
  constructor <;> linarith [q7.1, q7.2, q8.1, q8.2, q9.1, q9.2]

theorem uiContribution_bounds (r : DetailedScores) (h : rubricInRange r) :
    0 ≤ uiContribution r ∧ uiContribution r ≤ 10 := by
  have f10 := h r.ui_consistency (by simp [rubricFields])
  rw [uiContribution]
  exact_mod_cast f10

theorem evaluate_image_metrics_fields (rs : List DetailedScores)
    (hne : rs.length ≠ 0) :
    evaluate_image_metrics rs =
      ⟨((rs.map visContribution).sum / rs.length
          + (rs.map colorContribution).sum / rs.length
          + (rs.map textContribution).sum / rs.length
          + (rs.map uiContribution).sum / rs.length) / 4,
       (rs.map visContribution).sum / rs.length,
       (rs.map colorContribution).sum / rs.length,
       (rs.map textContribution).sum / rs.length,
       (rs.map uiContribution).sum / rs.length⟩ := by
  simp [evaluate_image_metrics, hne]

/-- C10: for a non-empty rubric list whose every field lies in [0,10], all
five fields of the `evaluate_image_metrics` output also lie in [0,10]. -/
theorem c10_metrics_in_range (rs : List DetailedScores) (hne : rs ≠ [])
    (hrange : ∀ r ∈ rs, rubricInRange r) :
    (0 ≤ (evaluate_image_metrics rs).overall_similarity
      ∧ (evaluate_image_metrics rs).overall_similarity ≤ 10)
    ∧ (0 ≤ (evaluate_image_metrics rs).visual_structure
      ∧ (evaluate_image_metrics rs).visual_structure ≤ 10)
    ∧ (0 ≤ (evaluate_image_metrics rs).color_aesthetic
      ∧ (evaluate_image_metrics rs).color_aesthetic ≤ 10)
    ∧ (0 ≤ (evaluate_image_metrics rs).textual_content
      ∧ (evaluate_image_metrics rs).textual_content ≤ 10)
    ∧ (0 ≤ (evaluate_image_metrics rs).user_interface
      ∧ (evaluate_image_metrics rs).user_interface ≤ 10) := by
  have hlen : rs.length ≠ 0 := fun h => hne (List.length_eq_zero.mp h)
  have hmapne : ∀ (f : DetailedScores → ℚ), rs.map f ≠ [] := by
    intro f hmap
    exact hne (List.map_eq_nil.mp hmap)
  have hmem : ∀ (f : DetailedScores → ℚ),
      (∀ r, rubricInRange r → 0 ≤ f r ∧ f r ≤ 10) →
      ∀ x ∈ rs.map f, 0 ≤ x ∧ x ≤ 10 := by
    intro f hf x hx
    obtain ⟨r, hr, rfl⟩ := List.mem_map.mp hx
    exact hf r (hrange r hr)
  have hv := mean_bounds (rs.map visContribution) (hmapne _)
    (hmem _ visContribution_bounds)
  have hc := mean_bounds (rs.map colorContribution) (hmapne _)
    (hmem _ colorContribution_bounds)
  have ht := mean_bounds (rs.map textContribution) (hmapne _)
    (hmem _ textContribution_bounds)
  have hu := mean_bounds (rs.map uiContribution) (hmapne _)
    (hmem _ uiContribution_bounds)
  rw [List.length_map] at hv hc ht hu
  rw [evaluate_image_metrics_fields rs hlen]
  refine ⟨⟨?_, ?_⟩, ⟨hv.1, hv.2⟩, ⟨hc.1, hc.2⟩, ⟨ht.1, ht.2⟩, ⟨hu.1, hu.2⟩⟩
  · simp only
    linarith [hv.1, hc.1, ht.1, hu.1]
  · simp only
    linarith [hv.2, hc.2, ht.2, hu.2]

/-- Witness for C10: a single in-range rubric of all 3s gives metrics inside
[0,10]. -/
theorem c10_metrics_in_range_witness :
    (0 ≤ (evaluate_image_metrics [⟨3, 3, 3, 3, 3, 3, 3, 3, 3, 3⟩]).overall_similarity
      ∧ (evaluate_image_metrics [⟨3, 3, 3, 3, 3, 3, 3, 3, 3, 3⟩]).overall_similarity ≤ 10)
    ∧ (0 ≤ (evaluate_image_metrics [⟨3, 3, 3, 3, 3, 3, 3, 3, 3, 3⟩]).visual_structure
      ∧ (evaluate_image_metrics [⟨3, 3, 3, 3, 3, 3, 3, 3, 3, 3⟩]).visual_structure ≤ 10)
    ∧ (0 ≤ (evaluate_image_metrics [⟨3, 3, 3, 3, 3, 3, 3, 3, 3, 3⟩]).color_aesthetic
      ∧ (evaluate_image_metrics [⟨3, 3, 3, 3, 3, 3, 3, 3, 3, 3⟩]).color_aesthetic ≤ 10)
    ∧ (0 ≤ (evaluate_image_metrics [⟨3, 3, 3, 3, 3, 3, 3, 3, 3, 3⟩]).textual_content
      ∧ (evaluate_image_metrics [⟨3, 3, 3, 3, 3, 3, 3, 3, 3, 3⟩]).textual_content ≤ 10)
    ∧ (0 ≤ (evaluate_image_metrics [⟨3, 3, 3, 3, 3, 3, 3, 3, 3, 3⟩]).user_interface
      ∧ (evaluate_image_metrics [⟨3, 3, 3, 3, 3, 3, 3, 3, 3, 3⟩]).user_interface ≤ 10) :=
  c10_metrics_in_range [⟨3, 3, 3, 3, 3, 3, 3, 3, 3, 3⟩] (by simp) (by decide)

/-! ## Round-trip claim -/

theorem splitComma_no_comma (t : List Char) (h : ',' ∉ t) : splitComma t = [t] := by
  induction t with
  | nil => rfl
  | cons c cs ih =>
    have hc : c ≠ ',' := fun hh => h (hh ▸ List.mem_cons_self _ _)
    have hcs : ',' ∉ cs := fun hh => h (List.mem_cons_of_mem _ hh)
    rw [splitComma, if_neg hc, ih hcs]

theorem splitComma_append (t rest : List Char) (h : ',' ∉ t) :
    splitComma (t ++ ',' :: rest) = t :: splitComma rest := by
  induction t with
  | nil => rw [List.nil_append, splitComma, if_pos rfl]
  | cons c cs ih =>
    have hc : c ≠ ',' := fun hh => h (hh ▸ List.mem_cons_self _ _)
    have hcs : ',' ∉ cs := fun hh => h (List.mem_cons_of_mem _ hh)
    rw [List.cons_append, splitComma, if_neg hc, ih hcs]

theorem splitComma_joinCommas (ts : List (List Char)) (hne : ts ≠ [])
    (h : ∀ t ∈ ts, ',' ∉ t) : splitComma (joinCommas ts) = ts := by
  induction ts with
  | nil => exact absurd rfl hne
  | cons t rest ih =>
    cases rest with
    | nil => exact splitComma_no_comma t (h t (by simp))
    | cons t2 rs =>
      rw [joinCommas, splitComma_append _ _ (h t (by simp)),
        ih (by simp) (fun t2 ht2 => h t2 (List.mem_cons_of_mem _ ht2))]

theorem joinCommas_append_single (xs : List (List Char)) (y : List Char)
    (h : xs ≠ []) : joinCommas (xs ++ [y]) = joinCommas xs ++ ',' :: y := by
  induction xs with
  | nil => exact absurd rfl h
  | cons t rest ih =>
    cases rest with
    | nil => rfl
    | cons t2 rs =>
      show t ++ ',' :: joinCommas ((t2 :: rs) ++ [y])
        = (t ++ ',' :: joinCommas (t2 :: rs)) ++ ',' :: y
      rw [ih (by simp)]
      simp [List.append_assoc]

theorem joinCommas_reverse (ts : List (List Char)) :
    (joinCommas ts).reverse = joinCommas ((ts.map List.reverse).reverse) := by
  induction ts with
  | nil => rfl
  | cons t rest ih =>
    cases rest with
    | nil => rfl
    | cons t2 rs =>
      have hK : (List.map List.reverse (t2 :: rs)).reverse ≠ [] := by simp
      calc (joinCommas (t :: t2 :: rs)).reverse
          = ((joinCommas (t2 :: rs)).reverse ++ [',']) ++ t.reverse := by
            rw [show joinCommas (t :: t2 :: rs)
                = t ++ ',' :: joinCommas (t2 :: rs) from rfl,
              List.reverse_append, List.reverse_cons]
        _ = joinCommas ((List.map List.reverse (t2 :: rs)).reverse)
              ++ ',' :: t.reverse := by
            rw [ih, List.append_assoc, List.singleton_append]
        _ = joinCommas ((List.map List.reverse (t2 :: rs)).reverse
              ++ [t.reverse]) := by
            rw [joinCommas_append_single _ _ hK]
        _ = joinCommas ((List.map List.reverse (t :: t2 :: rs)).reverse) := by
            simp [List.append_assoc]

theorem mem_joinCommas (ts : List (List Char)) (c : Char) (hc : c ∈ joinCommas ts) :
    c = ',' ∨ ∃ t ∈ ts, c ∈ t := by
  induction ts with
  | nil => cases hc
  | cons t rest ih =>
    cases rest with
    | nil => exact Or.inr ⟨t, by simp, hc⟩
    | cons t2 rs =>
      rw [joinCommas] at hc
      rcases List.mem_append.mp hc with h | h
      · exact Or.inr ⟨t, by simp, h⟩
      · rcases List.mem_cons.mp h with h | h
        · exact Or.inl h
        · rcases ih h with h | ⟨t3, ht3, hct3⟩
          · exact Or.inl h
          · exact Or.inr ⟨t3, List.mem_cons_of_mem _ ht3, hct3⟩

theorem pyReplaceNl_eq_self (cs : List Char) (h : ∀ c ∈ cs, c ≠ '\n') :
    pyReplaceNl cs = cs := by
  induction cs with
  | nil => rfl
  | cons c cs ih =>
    rw [pyReplaceNl, List.map_cons, if_neg (h c (List.mem_cons_self _ _))]
    have := ih (fun c2 hc2 => h c2 (List.mem_cons_of_mem _ hc2))
    rw [pyReplaceNl] at this
    rw [this]

theorem isStripChar_digit {c : Char} (h : c.isDigit = true) : isStripChar c = false := by
  rcases Decidable.em (c = ',') with hc | hc
  · exact absurd (hc ▸ h) (by decide)
  rcases Decidable.em (c = ' ') with hs | hs
  · exact absurd (hs ▸ h) (by decide)
  simp [isStripChar, hc, hs]

theorem dropWhile_strip_joinCommas (ts : List (List Char)) (hne : ts ≠ [])
    (h : ∀ t ∈ ts, t ≠ [] ∧ ∀ c ∈ t, c.isDigit = true) :
    (joinCommas ts).dropWhile isStripChar = joinCommas ts := by
  obtain ⟨t0, rest, rfl⟩ : ∃ t0 rest, ts = t0 :: rest := by
    cases ts with
    | nil => exact absurd rfl hne
    | cons a b => exact ⟨a, b, rfl⟩
  obtain ⟨ht0ne, ht0d⟩ := h t0 (List.mem_cons_self _ _)
  obtain ⟨d, t0tail, rfl⟩ : ∃ d t0tail, t0 = d :: t0tail := by
    cases t0 with
    | nil => exact absurd rfl ht0ne
    | cons a b => exact ⟨a, b, rfl⟩
  have hd : isStripChar d = false := isStripChar_digit (ht0d d (List.mem_cons_self _ _))
  cases rest with
  | nil => rw [show joinCommas [d :: t0tail] = d :: t0tail from rfl,
      List.dropWhile_cons, hd]; rfl
  | cons t2 rs =>
    rw [show joinCommas ((d :: t0tail) :: t2 :: rs)
        = d :: (t0tail ++ ',' :: joinCommas (t2 :: rs)) from rfl,
      List.dropWhile_cons, hd]
    rfl

theorem pyStrip_joinCommas (ts : List (List Char)) (hne : ts ≠ [])
    (h : ∀ t ∈ ts, t ≠ [] ∧ ∀ c ∈ t, c.isDigit = true) :
    pyStrip (joinCommas ts) = joinCommas ts := by
  have hne2 : (ts.map List.reverse).reverse ≠ [] := by
    simp only [ne_eq, List.reverse_eq_nil_iff, List.map_eq_nil_iff]
    exact hne
  have h2 : ∀ t ∈ (ts.map List.reverse).reverse, t ≠ [] ∧ ∀ c ∈ t, c.isDigit = true := by
    intro t ht
    rw [List.mem_reverse] at ht
    obtain ⟨t0, ht0, rfl⟩ := List.mem_map.mp ht
    obtain ⟨ht0ne, ht0d⟩ := h t0 ht0
    refine ⟨by simpa using ht0ne, ?_⟩
    intro c hc
    exact ht0d c (List.mem_reverse.mp hc)
  rw [pyStrip, dropWhile_strip_joinCommas ts hne h, joinCommas_reverse,
    dropWhile_strip_joinCommas _ hne2 h2, ← joinCommas_reverse, List.reverse_reverse]

theorem extract_joinCommas_digits (ts : List (List Char)) (hne : ts ≠ [])
    (h : ∀ t ∈ ts, t ≠ [] ∧ ∀ c ∈ t, c.isDigit = true) :
    extractTokens (joinCommas ts) = ts := by
  have hnc : ∀ t ∈ ts, ',' ∉ t :=
    fun t ht hcm => absurd ((h t ht).2 ',' hcm) (by decide)
  have hnl : ∀ c ∈ joinCommas ts, c ≠ '\n' := by
    intro c hc heq
    subst heq
    rcases mem_joinCommas ts _ hc with h1 | ⟨t, ht, hct⟩
    · exact absurd h1 (by decide)
    · exact absurd ((h t ht).2 _ hct) (by decide)
  rw [extractTokens, pyReplaceNl_eq_self _ hnl, pyStrip_joinCommas ts hne h,
    splitComma_joinCommas ts hne hnc]

theorem natChars_facts : ∀ i : Fin 11,
    (natChars i.val ≠ [] ∧ ∀ c ∈ natChars i.val, c.isDigit = true)
    ∧ pyInt (natChars i.val) = some (i.val : Int) := by decide

theorem convertList_map_intChars (vs : List Int) (h : ∀ v ∈ vs, 0 ≤ v ∧ v ≤ 10) :
    convertList (vs.map intChars) = some vs := by
  induction vs with
  | nil => rfl
  | cons v vs ih =>
    obtain ⟨h0, h10⟩ := h v (List.mem_cons_self _ _)
    have hrest := ih (fun w hw => h w (List.mem_cons_of_mem _ hw))
    have hlt : v.toNat < 11 := by omega
    have hv : pyInt (intChars v) = some v := by
      rw [intChars, if_neg (not_lt.mpr h0)]
      have hfact := (natChars_facts ⟨v.toNat, hlt⟩).2
      rw [hfact]
      congr 1
      simp only [Fin.val_mk]
      omega
    rw [List.map_cons, convertList, hv, hrest]

theorem rubricFields_inj {a b : DetailedScores}
    (h : rubricFields a = rubricFields b) : a = b := by
  cases a
  cases b
  simp only [rubricFields, List.cons.injEq, and_true] at h
  obtain ⟨e1, e2, e3, e4, e5, e6, e7, e8, e9, e10⟩ := h
  simp [e1, e2, e3, e4, e5, e6, e7, e8, e9, e10]

/-- C9: rendering any in-range rubric as the comma-separated decimal string
"v0,v1,...,v9" and parsing it back through `get_individual_scores`'s
extraction yields exactly the original rubric. -/
theorem c9_render_roundtrip (o : DetailedScores) (h : rubricInRange o) :
    parseScores (renderRubric o) = some o := by
  have htok : ∀ t ∈ (rubricFields o).map intChars,
      t ≠ [] ∧ ∀ c ∈ t, c.isDigit = true := by
    intro t ht
    obtain ⟨v, hv, rfl⟩ := List.mem_map.mp ht
    obtain ⟨h0, h10⟩ := h v hv
    rw [intChars, if_neg (not_lt.mpr h0)]
    have hlt : v.toNat < 11 := by omega
    exact (natChars_facts ⟨v.toNat, hlt⟩).1
  have hne : (rubricFields o).map intChars ≠ [] := by simp [rubricFields]
  have hext : extractTokens (renderRubric o) = (rubricFields o).map intChars := by
    rw [renderRubric]
    exact extract_joinCommas_digits _ hne htok
  have hconv : convertTokens (renderRubric o) = some (rubricFields o) := by
    rw [convertTokens, hext]
    exact convertList_map_intChars _ h
  obtain ⟨ds, hds, hfields⟩ :=
    parseScores_of_convert _ _ hconv (by simp [rubricFields])
  rwa [rubricFields_inj hfields] at hds

/-- Witness for C9: the in-range rubric [0,1,2,3,4,5,6,7,8,10] round-trips
through rendering and parsing. -/
theorem c9_render_roundtrip_witness :
    parseScores (renderRubric ⟨0, 1, 2, 3, 4, 5, 6, 7, 8, 10⟩)
      = some ⟨0, 1, 2, 3, 4, 5, 6, 7, 8, 10⟩ :=
  c9_render_roundtrip ⟨0, 1, 2, 3, 4, 5, 6, 7, 8, 10⟩ (by decide)

end Web2Code
